import Mathlib

/-!
Verification of the TODO tool of `gemini-cli-enhanced`
(`packages/core/src/tools/todo.ts`): the `TodoManager` store, the
`TodoTool.execute` adapter, and the textual rendering.

The embedding is shallow: the mutable singleton `TodoManager` becomes a
record threaded through the operations; TypeScript string enums are the
strings they erase to at runtime; `JSON.stringify` payloads are kept as
structured records.
-/

namespace TodoSpec

/-! ### Decimal strings

The store assigns ids with `this.nextId.toString()`.  To reason about id
uniqueness we prove that the decimal rendering of a natural number
(`Nat.repr`, the `toString` of core Lean, which mirrors JavaScript
`Number.prototype.toString` on naturals) is injective, via a parse
round trip. -/

/-- Value of a decimal digit character (`'0'` ↦ 0, …, `'9'` ↦ 9). -/
def charVal (c : Char) : Nat := c.toNat - 48

/-- Parse a string of decimal digit characters, most significant first. -/
def decNat (l : List Char) : Nat :=
  l.foldl (fun acc c => acc * 10 + charVal c) 0

theorem toDigitsCore_append :
    ∀ (n fuel : Nat) (ds : List Char), n < fuel →
      Nat.toDigitsCore 10 fuel n ds = Nat.toDigits 10 n ++ ds := by
  intro n
  induction n using Nat.strong_induction_on with
  | _ n ih =>
    intro fuel ds hfuel
    match fuel, hfuel with
    | fuel + 1, hfuel =>
      by_cases h0 : n / 10 = 0
      · simp [Nat.toDigitsCore, Nat.toDigits, h0]
      · have hn : 0 < n := by
          rcases Nat.eq_zero_or_pos n with h | h
          · exact absurd (by simp [h]) h0
          · exact h
        have hlt : n / 10 < n := Nat.div_lt_self hn (by norm_num)
        have hf : n / 10 < fuel := lt_of_lt_of_le hlt (Nat.lt_succ_iff.mp hfuel)
        have lhs : Nat.toDigitsCore 10 (fuel + 1) n ds =
            Nat.toDigitsCore 10 fuel (n / 10) (Nat.digitChar (n % 10) :: ds) := by
          simp [Nat.toDigitsCore, h0]
        have rhs : Nat.toDigits 10 n =
            Nat.toDigitsCore 10 n (n / 10) [Nat.digitChar (n % 10)] := by
          simp [Nat.toDigits, Nat.toDigitsCore, h0]
        rw [lhs, ih (n / 10) hlt fuel _ hf, rhs, ih (n / 10) hlt n _ hlt]
        simp

theorem toDigits_lt_ten (n : Nat) (h : n < 10) :
    Nat.toDigits 10 n = [Nat.digitChar n] := by
  have h0 : n / 10 = 0 := Nat.div_eq_of_lt h
  simp [Nat.toDigits, Nat.toDigitsCore, h0, Nat.mod_eq_of_lt h]

theorem toDigits_ge_ten (n : Nat) (h : 10 ≤ n) :
    Nat.toDigits 10 n = Nat.toDigits 10 (n / 10) ++ [Nat.digitChar (n % 10)] := by
  have h0 : n / 10 ≠ 0 := by
    have : 1 ≤ n / 10 := (Nat.le_div_iff_mul_le (by norm_num)).mpr (by omega)
    omega
  have hlt : n / 10 < n := Nat.div_lt_self (by omega) (by norm_num)
  have : Nat.toDigits 10 n =
      Nat.toDigitsCore 10 n (n / 10) [Nat.digitChar (n % 10)] := by
    simp [Nat.toDigits, Nat.toDigitsCore, h0]
  rw [this, toDigitsCore_append (n / 10) n _ hlt]

theorem charVal_digitChar : ∀ m, m < 10 → charVal (Nat.digitChar m) = m := by decide

theorem decNat_toDigits : ∀ n : Nat, decNat (Nat.toDigits 10 n) = n := by
  intro n
  induction n using Nat.strong_induction_on with
  | _ n ih =>
    by_cases h : n < 10
    · rw [toDigits_lt_ten n h]
      simp [decNat, charVal_digitChar n h]
    · push_neg at h
      have hlt : n / 10 < n := Nat.div_lt_self (by omega) (by norm_num)
      rw [toDigits_ge_ten n h]
      unfold decNat
      rw [List.foldl_append]
      have := ih (n / 10) hlt
      unfold decNat at this
      simp only [this, List.foldl_cons, List.foldl_nil]
      rw [charVal_digitChar (n % 10) (Nat.mod_lt n (by norm_num))]
      omega

theorem natToString_injective : Function.Injective (fun n : Nat => toString n) := by
  intro m n h
  have hd : Nat.toDigits 10 m = Nat.toDigits 10 n := congrArg String.data h
  have := congrArg decNat hd
  simpa [decNat_toDigits] using this

theorem natToString_inj {m n : Nat} (h : toString m = toString n) : m = n :=
  natToString_injective h

/-! ### The data model (`todo.ts` lines 10–27)

`enum TodoStatus` is a TypeScript string enum: at runtime statuses are
plain strings, and `TodoTool.execute` casts incoming strings into the
enum without a runtime check, so the embedding keeps `status : String`
together with the three named constants. -/

/-- `TodoStatus.NOT_MADE = 'not_made'`. -/
def TodoStatus.NOT_MADE : String := "not_made"

/-- `TodoStatus.IN_PROGRESS = 'in_progress'`. -/
def TodoStatus.IN_PROGRESS : String := "in_progress"

/-- `TodoStatus.MADE = 'made'`. -/
def TodoStatus.MADE : String := "made"

/-- `interface TodoStep` (`todo.ts` lines 16–21). -/
structure TodoStep where
  id : String
  title : String
  description : String
  status : String
  deriving Repr, DecidableEq

/-- The mutable fields of `class TodoManager` (`todo.ts` lines 23–27):
`private steps: TodoStep[] = []` and `private nextId = 1`. -/
structure TodoManager where
  steps : List TodoStep
  nextId : Nat
  deriving Repr, DecidableEq

/-- The state of the freshly constructed singleton. -/
def TodoManager.fresh : TodoManager := { steps := [], nextId := 1 }

/-- `initializeTodo` (`todo.ts` lines 37–45): replace `steps` by fresh
records numbered from 1, all `NOT_MADE`; set `nextId` to the new length
plus one. -/
def TodoManager.initializeTodo (m : TodoManager)
    (entries : List (String × String)) : TodoManager :=
  let steps := entries.enum.map (fun p =>
    { id := toString (p.1 + 1), title := p.2.1, description := p.2.2,
      status := TodoStatus.NOT_MADE : TodoStep })
  { m with steps := steps, nextId := steps.length + 1 }

/-- `addStep` (`todo.ts` lines 47–57): push a fresh `NOT_MADE` record
with id `nextId.toString()`, increment `nextId`, return the id. -/
def TodoManager.addStep (m : TodoManager) (title description : String) :
    String × TodoManager :=
  let id := toString m.nextId
  (id, { m with
    steps := m.steps ++
      [{ id := id, title := title, description := description,
         status := TodoStatus.NOT_MADE }],
    nextId := m.nextId + 1 })

/-- `deleteStep` (`todo.ts` lines 59–66): `findIndex` on exact id
equality, then `splice(index, 1)`; report whether a record was found. -/
def TodoManager.deleteStep (m : TodoManager) (id : String) :
    Bool × TodoManager :=
  match m.steps.findIdx? (fun step => step.id == id) with
  | some index => (true, { m with steps := m.steps.eraseIdx index })
  | none => (false, m)

/-- Overwrite the status of the first record whose id matches: this is
what `find` followed by `step.status = status` does to the array. -/
def setStatusFirst : List TodoStep → String → String → List TodoStep
  | [], _, _ => []
  | step :: rest, id, status =>
    if step.id == id then { step with status := status } :: rest
    else step :: setStatusFirst rest id status

/-- `updateStatus` (`todo.ts` lines 68–75): `find` on exact id equality,
mutate the found record's status in place; report whether it was found. -/
def TodoManager.updateStatus (m : TodoManager) (id status : String) :
    Bool × TodoManager :=
  match m.steps.find? (fun step => step.id == id) with
  | some _ => (true, { m with steps := setStatusFirst m.steps id status })
  | none => (false, m)

/-- `getSteps` (`todo.ts` lines 77–79): `return [...this.steps]`.  In the
value semantics of the shallow embedding the array copy is the list of
records; the reference-level behaviour of the copy is modelled separately
below (`RefState`). -/
def TodoManager.getSteps (m : TodoManager) : List TodoStep := m.steps

/-- `getStatusIcon` (`todo.ts` lines 92–103): a `switch` on the status
string with a default branch. -/
def getStatusIcon (status : String) : String :=
  if status == TodoStatus.NOT_MADE then "⭕"
  else if status == TodoStatus.IN_PROGRESS then "🔄"
  else if status == TodoStatus.MADE then "✅"
  else "⭕"

/-- `getStepsForDisplay` (`todo.ts` lines 81–90): empty string for the
empty list, otherwise the icon-prefixed titles joined with newlines. -/
def TodoManager.getStepsForDisplay (m : TodoManager) : String :=
  if m.steps.length == 0 then ""
  else String.intercalate "\n"
    (m.steps.map (fun step => getStatusIcon step.status ++ " " ++ step.title))

/-- `clearTodo` (`todo.ts` lines 105–108). -/
def TodoManager.clearTodo (m : TodoManager) : TodoManager :=
  { m with steps := [], nextId := 1 }

/-! ### The tool adapter (`todo.ts` lines 175–315)

`interface TodoToolParams` has one required field `action` and five
optional ones.  The TypeScript literal-union types are erased at
runtime — a tool call can carry any strings — so every field is a plain
(optional) string here.  `JSON.stringify` of the response object is kept
as the structured record `LlmPayload`. -/

/-- `interface TodoToolParams` (`todo.ts` lines 175–182). -/
structure TodoToolParams where
  action : String
  steps : Option (List (String × String))
  step_id : Option String
  title : Option String
  description : Option String
  status : Option String
  deriving Repr, DecidableEq

/-- The fields ever placed in the `llmContent` JSON object
(`success`, `message`, `error`, `steps`, `step_id`, `display`). -/
structure LlmPayload where
  success : Bool
  message : Option String
  error : Option String
  steps : Option (List TodoStep)
  step_id : Option String
  display : Option String
  deriving Repr, DecidableEq

/-- `ToolResult`: the serialized payload plus the display string. -/
structure ToolResult where
  llmContent : LlmPayload
  returnDisplay : String
  deriving Repr, DecidableEq

/-- JavaScript truthiness of an optional string: `!x` holds when the
field is absent (`undefined`) or the empty string. -/
def strFalsy : Option String → Bool
  | none => true
  | some s => s == ""

/-- Every error branch of `execute` builds
`{ success: false, error: msg }` with `returnDisplay: 'Error: ' + msg`. -/
def errResult (msg : String) : ToolResult :=
  { llmContent :=
      { success := false, message := none, error := some msg,
        steps := none, step_id := none, display := none },
    returnDisplay := "Error: " ++ msg }

/-- A success payload carrying only a `message`. -/
def okMessage (msg display : String) : ToolResult :=
  { llmContent :=
      { success := true, message := some msg, error := none,
        steps := none, step_id := none, display := none },
    returnDisplay := display }

/-- The `case 'initialize'` branch (`todo.ts` lines 205–220): `steps`
absent fails; otherwise the store is replaced (an empty array is truthy
in JavaScript and `Array.isArray` accepts it, so `some []` succeeds). -/
def doInitialize (params : TodoToolParams) (m : TodoManager) :
    ToolResult × TodoManager :=
  match params.steps with
  | none => (errResult "Steps array required for initialize action", m)
  | some entries =>
    let m1 := m.initializeTodo entries
    ({ llmContent :=
        { success := true,
          message := some ("Initialized TODO list with " ++
            toString entries.length ++ " steps"),
          error := none, steps := some m1.getSteps, step_id := none,
          display := none },
       returnDisplay := "TODO list initialized with " ++
         toString entries.length ++ " steps" }, m1)

/-- The `case 'add'` branch (`todo.ts` lines 222–237): `!params.title ||
!params.description` fails (absent or empty), otherwise append. -/
def doAdd (params : TodoToolParams) (m : TodoManager) :
    ToolResult × TodoManager :=
  if strFalsy params.title || strFalsy params.description then
    (errResult "Title and description required for add action", m)
  else
    let r := m.addStep (params.title.getD "") (params.description.getD "")
    ({ llmContent :=
        { success := true,
          message := some ("Added step: " ++ params.title.getD ""),
          error := none, steps := none, step_id := some r.1,
          display := none },
       returnDisplay := "Added step: " ++ params.title.getD "" }, r.2)

/-- The `case 'delete'` branch (`todo.ts` lines 239–257). -/
def doDelete (params : TodoToolParams) (m : TodoManager) :
    ToolResult × TodoManager :=
  if strFalsy params.step_id then
    (errResult "Step ID required for delete action", m)
  else
    let sid := params.step_id.getD ""
    let r := m.deleteStep sid
    if r.1 then
      (okMessage ("Deleted step " ++ sid) ("Deleted step " ++ sid), r.2)
    else
      (errResult ("Step " ++ sid ++ " not found"), r.2)

/-- The `case 'update_status'` branch (`todo.ts` lines 259–281): the
incoming status string is cast (`params.status as TodoStatus`) with no
runtime validation and handed to `updateStatus` verbatim. -/
def doUpdateStatus (params : TodoToolParams) (m : TodoManager) :
    ToolResult × TodoManager :=
  if strFalsy params.step_id || strFalsy params.status then
    (errResult "Step ID and status required for update_status action", m)
  else
    let sid := params.step_id.getD ""
    let st := params.status.getD ""
    let r := m.updateStatus sid st
    if r.1 then
      (okMessage ("Updated step " ++ sid ++ " status to " ++ st)
        ("Updated step " ++ sid ++ " status to " ++ st), r.2)
    else
      (errResult ("Step " ++ sid ++ " not found"), r.2)

/-- The `case 'get_steps'` branch (`todo.ts` lines 283–292). -/
def doGetSteps (m : TodoManager) : ToolResult × TodoManager :=
  let steps := m.getSteps
  ({ llmContent :=
      { success := true, message := none, error := none,
        steps := some steps, step_id := none,
        display := some m.getStepsForDisplay },
     returnDisplay :=
       if steps.length > 0 then m.getStepsForDisplay
       else "No TODO steps" }, m)

/-- `TodoTool.execute` (`todo.ts` lines 197–314): dispatch on the action
tag; unknown tags reach the `default` branch. -/
def execute (params : TodoToolParams) (m : TodoManager) :
    ToolResult × TodoManager :=
  if params.action == "initialize" then doInitialize params m
  else if params.action == "add" then doAdd params m
  else if params.action == "delete" then doDelete params m
  else if params.action == "update_status" then doUpdateStatus params m
  else if params.action == "get_steps" then doGetSteps m
  else if params.action == "clear" then
    (okMessage "TODO list cleared" "TODO list cleared", m.clearTodo)
  else
    (errResult ("Unknown action: " ++ params.action), m)

/-! ### Operation sequences over one store instance

One constructor per public mutating operation of `TodoManager`, used to
speak about every finite sequence of calls on one instance. -/

/-- A single call to one of the mutating store operations. -/
inductive Op where
  | init (entries : List (String × String))
  | add (title description : String)
  | del (id : String)
  | upd (id status : String)
  | clear
  deriving Repr, DecidableEq

/-- The state transition of one call (return values discarded). -/
def applyOp (m : TodoManager) : Op → TodoManager
  | .init entries => m.initializeTodo entries
  | .add title description => (m.addStep title description).2
  | .del id => (m.deleteStep id).2
  | .upd id status => (m.updateStatus id status).2
  | .clear => m.clearTodo

/-- The ids a single call assigns: `initializeTodo` stamps `"1" … "N"`
onto the fresh records, `addStep` returns one fresh id, the rest assign
none. -/
def opAssigns (m : TodoManager) : Op → List String
  | .init entries =>
      ((m.initializeTodo entries).steps).map (fun step => step.id)
  | .add title description => [(m.addStep title description).1]
  | .del _ => []
  | .upd _ _ => []
  | .clear => []

/-- All ids assigned while running a call sequence from state `m`. -/
def assignedFrom (m : TodoManager) : List Op → List String
  | [] => []
  | op :: rest => opAssigns m op ++ assignedFrom (applyOp m op) rest

/-- The value of the id counter before, between and after the calls. -/
def counterTrace (m : TodoManager) : List Op → List Nat
  | [] => [m.nextId]
  | op :: rest => m.nextId :: counterTrace (applyOp m op) rest

/-- Run a call sequence from state `m`. -/
def runOps (m : TodoManager) : List Op → TodoManager
  | [] => m
  | op :: rest => runOps (applyOp m op) rest

/-- The claim "ids are unique across the lifetime of one store instance
and the counter never decreases", for one concrete call sequence run on
a fresh instance. -/
def LifetimeClaim (ops : List Op) : Prop :=
  (assignedFrom TodoManager.fresh ops).Nodup ∧
  (counterTrace TodoManager.fresh ops).Chain' (· ≤ ·)

/-- `true` for the operations that reset the id counter
(`initializeTodo` sets it to `length + 1`, `clearTodo` to `1`). -/
def Op.resets : Op → Bool
  | .init _ => true
  | .clear => true
  | _ => false

/-- Consecutive `addStep` calls: the list of returned ids and the final
state (`todo.ts` lines 47–57 iterated). -/
def addMany (m : TodoManager) : List (String × String) → List String × TodoManager
  | [] => ([], m)
  | entry :: rest =>
    let r := m.addStep entry.1 entry.2
    let rr := addMany r.2 rest
    (r.1 :: rr.1, rr.2)

/-! ### Reference-level view of `getSteps` (`todo.ts` lines 77–79)

`return [...this.steps]` copies the *array*, not the `TodoStep` objects:
the spread produces a fresh array whose elements are the same object
references the store holds.  To settle the defensive-copy claim this
model makes object identity explicit: a heap of `TodoStep` records
addressed by index, and the store's array as a list of addresses. -/

/-- A `TodoStep` object heap together with the store's `steps` array
(a list of heap addresses) and the id counter. -/
structure RefState where
  heap : List TodoStep
  refs : List Nat
  nextId : Nat
  deriving Repr, DecidableEq

/-- Placeholder record for dangling addresses (never used on valid
states). -/
def blankStep : TodoStep :=
  { id := "", title := "", description := "", status := "" }

/-- What `[...this.steps]` hands the caller: a fresh array holding the
same object references. -/
def RefState.getStepsRefs (s : RefState) : List Nat := s.refs

/-- The record values the store's array currently designates — what a
subsequent `getSteps` lets any reader observe. -/
def RefState.observe (s : RefState) : List TodoStep :=
  s.refs.map (fun r => s.heap.getD r blankStep)

/-- A caller-side mutation of one returned `TodoStep` object
(`step.status = newStatus` on an element of the returned array): writes
through the shared reference into the heap, touching neither the store's
array nor its counter. -/
def callerWriteStatus (s : RefState) (r : Nat) (status : String) : RefState :=
  let cell := s.heap.getD r blankStep
  { s with heap := s.heap.set r { cell with status := status } }

/-! ### Helper lemmas -/

theorem intercalate_go_eq (sep : String) :
    ∀ (l : List String) (acc a : String),
      String.intercalate.go acc sep (a :: l) =
        acc ++ sep ++ String.intercalate.go a sep l := by
  intro l
  induction l with
  | nil => intro acc a; rfl
  | cons b bs ih =>
    intro acc a
    show String.intercalate.go (acc ++ sep ++ a) sep (b :: bs) = _
    rw [ih (acc ++ sep ++ a) b, ih a b]
    simp [String.append_assoc]

theorem intercalate_cons_cons (sep a b : String) (l : List String) :
    String.intercalate sep (a :: b :: l) =
      a ++ sep ++ String.intercalate sep (b :: l) := by
  show String.intercalate.go a sep (b :: l) = _
  rw [intercalate_go_eq sep l a b]
  rfl

/-! ### C5 — `clearTodo` -/

/-- C5: after `clear()` the list is empty (`getSteps` returns `[]`), the
counter is reset to `1`, and an immediately following `add` returns the
id `"1"`. -/
theorem clear_empties_and_resets (m : TodoManager) (t d : String) :
    (m.clearTodo).getSteps = [] ∧
    (m.clearTodo).nextId = 1 ∧
    ((m.clearTodo).addStep t d).1 = "1" := by
  refine ⟨rfl, rfl, ?_⟩
  show toString 1 = "1"
  rfl

/-! ### C4 — `initializeTodo` -/

/-- C4: `initializeTodo` with `N` entries replaces the whole list with
fresh records: ids `"1"` through `"N"` in order, all statuses Pending
(`not_made`), titles and descriptions taken from the entries in order;
the counter becomes `N + 1`, so the next `add` returns the id
`toString (N + 1)`.  There is no error condition (the function is total,
and the empty sequence yields the empty list by the first conjunct). -/
theorem initialize_replaces_all (m : TodoManager)
    (entries : List (String × String)) (t d : String) :
    (m.initializeTodo entries).getSteps.length = entries.length ∧
    (m.initializeTodo entries).getSteps.map (fun step => step.id) =
      (List.range entries.length).map (fun i => toString (i + 1)) ∧
    (m.initializeTodo entries).getSteps.map (fun step => step.status) =
      List.replicate entries.length TodoStatus.NOT_MADE ∧
    (m.initializeTodo entries).getSteps.map
        (fun step => (step.title, step.description)) = entries ∧
    (m.initializeTodo entries).nextId = entries.length + 1 ∧
    ((m.initializeTodo entries).addStep t d).1 =
      toString (entries.length + 1) := by
  refine ⟨?_, ?_, ?_, ?_, ?_, ?_⟩
  · simp [TodoManager.initializeTodo, TodoManager.getSteps]
  · show (entries.enum.map _).map _ = _
    rw [List.map_map]
    have : ((fun step => step.id) ∘ fun p : Nat × (String × String) =>
        ({ id := toString (p.1 + 1), title := p.2.1, description := p.2.2,
           status := TodoStatus.NOT_MADE } : TodoStep)) =
        (fun i => toString (i + 1)) ∘ Prod.fst := rfl
    rw [this, ← List.map_map, List.enum_map_fst]
  · show (entries.enum.map _).map _ = _
    rw [List.map_map]
    have : ((fun step => step.status) ∘ fun p : Nat × (String × String) =>
        ({ id := toString (p.1 + 1), title := p.2.1, description := p.2.2,
           status := TodoStatus.NOT_MADE } : TodoStep)) =
        (fun _ => TodoStatus.NOT_MADE) := rfl
    rw [this, List.map_const', List.enum_length]
  · show (entries.enum.map _).map _ = _
    rw [List.map_map]
    have : ((fun step => (step.title, step.description)) ∘
        fun p : Nat × (String × String) =>
        ({ id := toString (p.1 + 1), title := p.2.1, description := p.2.2,
           status := TodoStatus.NOT_MADE } : TodoStep)) =
        (fun e : String × String => (e.1, e.2)) ∘ Prod.snd := rfl
    rw [this, ← List.map_map, List.enum_map_snd]
    simp
  · simp [TodoManager.initializeTodo]
  · show toString (m.initializeTodo entries).nextId = _
    congr 1
    simp [TodoManager.initializeTodo]

/-! ### C9 — `getStepsForDisplay` -/

/-- C9: the rendering is empty exactly on the empty list; a singleton
renders as its status glyph, a space and the title; a longer list
renders its head's line, a newline, then the rendering of the tail; and
the three status values map to the three fixed glyphs. -/
theorem display_one_line_per_task :
    (∀ m : TodoManager, m.steps = [] → m.getStepsForDisplay = "") ∧
    (∀ (m : TodoManager) (step : TodoStep), m.steps = [step] →
      m.getStepsForDisplay = getStatusIcon step.status ++ " " ++ step.title) ∧
    (∀ (m : TodoManager) (step : TodoStep) (rest : List TodoStep),
      m.steps = step :: rest → rest ≠ [] →
      m.getStepsForDisplay =
        getStatusIcon step.status ++ " " ++ step.title ++ "\n" ++
          TodoManager.getStepsForDisplay { steps := rest, nextId := m.nextId }) ∧
    getStatusIcon TodoStatus.NOT_MADE = "⭕" ∧
    getStatusIcon TodoStatus.IN_PROGRESS = "🔄" ∧
    getStatusIcon TodoStatus.MADE = "✅" := by
  refine ⟨?_, ?_, ?_, rfl, rfl, rfl⟩
  · intro m h
    simp [TodoManager.getStepsForDisplay, h]
  · intro m step h
    simp only [TodoManager.getStepsForDisplay, h]
    rfl
  · intro m step rest h hne
    match rest, hne with
    | r :: rs, _ =>
      simp only [TodoManager.getStepsForDisplay, h]
      rw [List.map_cons, List.map_cons, intercalate_cons_cons]
      simp [String.append_assoc]

/-! ### C6 — consecutive `addStep` calls -/

theorem addMany_fst (entries : List (String × String)) :
    ∀ m : TodoManager, (addMany m entries).1 =
      (List.range entries.length).map (fun i => toString (m.nextId + i)) := by
  induction entries with
  | nil => intro m; rfl
  | cons e rest ih =>
    intro m
    show (m.addStep e.1 e.2).1 ::
        (addMany (m.addStep e.1 e.2).2 rest).1 = _
    rw [ih (m.addStep e.1 e.2).2]
    have hnext : (m.addStep e.1 e.2).2.nextId = m.nextId + 1 := rfl
    rw [hnext, List.length_cons, List.range_succ_eq_map, List.map_cons,
      List.map_map]
    refine congrArg₂ _ (by rfl) ?_
    apply List.map_congr_left
    intro i _
    simp [Nat.add_comm, Nat.add_assoc, Nat.add_left_comm]

/-- C6: the ids returned by any run of consecutive `addStep` calls on
one store are the decimal renderings of the consecutive counter values
starting at the current `nextId` — a strictly increasing sequence of
numbers, hence pairwise-distinct id strings. -/
theorem consecutive_adds_strictly_increasing (m : TodoManager)
    (entries : List (String × String)) :
    (addMany m entries).1 =
      ((List.range entries.length).map (fun i => m.nextId + i)).map
        (fun k => toString k) ∧
    ((List.range entries.length).map (fun i => m.nextId + i)).Pairwise (· < ·) ∧
    (addMany m entries).1.Nodup := by
  have hmono : ((List.range entries.length).map
      (fun i => m.nextId + i)).Pairwise (· < ·) := by
    refine List.Pairwise.map _ ?_ (List.pairwise_lt_range entries.length)
    intro a b hab
    omega
  have hfst := addMany_fst entries m
  refine ⟨by rw [hfst, List.map_map]; rfl, hmono, ?_⟩
  rw [hfst]
  refine List.Nodup.map ?_ (List.nodup_range entries.length)
  intro a b hab
  have hab' : toString (m.nextId + a) = toString (m.nextId + b) := hab
  have := natToString_inj hab'
  omega

/-! ### C2 — validation of the `add` action -/

/-- The parameter record of an `add` call carrying `title` and
`description`. -/
def addParams (title description : Option String) : TodoToolParams :=
  { action := "add", steps := none, step_id := none, title := title,
    description := description, status := none }

/-- C2 counterexample: with `title` *present* but equal to the empty
string (and a nonempty description), both fields are present in the
request, yet the `add` action fails — JavaScript truthiness
(`!params.title`) rejects present-but-empty fields, so "fails exactly
when a field is missing" is false. -/
theorem add_present_empty_title_fails :
    (addParams (some "") (some "x")).title.isSome = true ∧
    (addParams (some "") (some "x")).description.isSome = true ∧
    (execute (addParams (some "") (some "x"))
        TodoManager.fresh).1.llmContent.success = false ∧
    (execute (addParams (some "") (some "x"))
        TodoManager.fresh).2 = TodoManager.fresh := by
  refine ⟨rfl, rfl, rfl, rfl⟩

/-- C2 (amended): the `add` action fails exactly when `title` or
`description` is missing *or empty*; on failure it returns the
structured error and leaves the store unchanged, and otherwise it
appends a fresh Pending step and returns success carrying the newly
assigned id. -/
theorem add_fails_iff_falsy (p : TodoToolParams) (m : TodoManager)
    (hact : p.action = "add") :
    ((execute p m).1.llmContent.success = false ↔
      (strFalsy p.title || strFalsy p.description) = true) ∧
    ((strFalsy p.title || strFalsy p.description) = true →
      (execute p m).1 =
        errResult "Title and description required for add action" ∧
      (execute p m).2 = m) ∧
    ((strFalsy p.title || strFalsy p.description) = false →
      (execute p m).1.llmContent.success = true ∧
      (execute p m).1.llmContent.step_id = some (toString m.nextId) ∧
      (execute p m).2.steps = m.steps ++
        [{ id := toString m.nextId, title := p.title.getD "",
           description := p.description.getD "",
           status := TodoStatus.NOT_MADE }] ∧
      (execute p m).2.nextId = m.nextId + 1) := by
  have hexec : execute p m = doAdd p m := by
    simp [execute, hact]
  rw [hexec]
  by_cases hf : (strFalsy p.title || strFalsy p.description) = true
  · refine ⟨?_, ?_, ?_⟩
    · simp [doAdd, hf, errResult]
    · intro _
      exact ⟨by simp [doAdd, hf], by simp [doAdd, hf]⟩
    · intro hc
      rw [hf] at hc
      exact absurd hc (by simp)
  · have hf' : (strFalsy p.title || strFalsy p.description) = false := by
      simpa using hf
    refine ⟨?_, ?_, ?_⟩
    · simp [doAdd, hf', errResult]
    · intro hc
      rw [hf'] at hc
      exact absurd hc (by simp)
    · intro _
      refine ⟨by simp [doAdd, hf'], by simp [doAdd, hf']; rfl, ?_, ?_⟩
      · simp [doAdd, hf', TodoManager.addStep]
      · simp [doAdd, hf', TodoManager.addStep]

/-- Witness for `add_fails_iff_falsy`: a well-formed `add` on a fresh
store succeeds and returns id `"1"`. -/
theorem add_fails_iff_falsy_witness :
    (execute (addParams (some "T") (some "D"))
        TodoManager.fresh).1.llmContent.success = true ∧
    (execute (addParams (some "T") (some "D"))
        TodoManager.fresh).1.llmContent.step_id = some "1" := by
  have h := (add_fails_iff_falsy (addParams (some "T") (some "D"))
    TodoManager.fresh rfl).2.2 rfl
  exact ⟨h.1, h.2.1.trans (by decide)⟩

/-! ### C10 — `update_status` performs no validation of the status -/

theorem setStatusFirst_map_id (id st : String) :
    ∀ l : List TodoStep,
      (setStatusFirst l id st).map (fun step => step.id) =
        l.map (fun step => step.id) := by
  intro l
  induction l with
  | nil => rfl
  | cons s rest ih =>
    by_cases h : (s.id == id) = true
    · simp [setStatusFirst, h]
    · rw [Bool.not_eq_true] at h
      simp [setStatusFirst, h, ih]

theorem setStatusFirst_find (id st : String) :
    ∀ l : List TodoStep,
      (setStatusFirst l id st).find? (fun step => step.id == id) =
        (l.find? (fun step => step.id == id)).map
          (fun step => { step with status := st }) := by
  intro l
  induction l with
  | nil => rfl
  | cons s rest ih =>
    by_cases h : (s.id == id) = true
    · simp [setStatusFirst, h, List.find?_cons]
    · rw [Bool.not_eq_true] at h
      simp [setStatusFirst, h, List.find?_cons, ih]

theorem setStatusFirst_nextId (m : TodoManager) (id st : String) :
    (m.updateStatus id st).2.nextId = m.nextId := by
  unfold TodoManager.updateStatus
  cases m.steps.find? (fun step => step.id == id) <;> rfl

/-- The parameter record of an `update_status` call. -/
def updParams (sid st : Option String) : TodoToolParams :=
  { action := "update_status", steps := none, step_id := sid,
    title := none, description := none, status := st }

/-- C10: an `update_status` call with a `step_id` present in the store
and *any* nonempty status string — the closed set
`{not_made, in_progress, made}` is never consulted — reports success and
overwrites the matching step's status verbatim with that string, leaving
every id, the order and the counter unchanged. -/
theorem update_status_unvalidated (m : TodoManager) (sid st : String)
    (hsid : sid ≠ "") (hst : st ≠ "")
    (hfound : (m.steps.find? (fun step => step.id == sid)).isSome = true) :
    (execute (updParams (some sid) (some st)) m).1.llmContent.success = true ∧
    (execute (updParams (some sid) (some st)) m).2.steps.map
        (fun step => step.id) = m.steps.map (fun step => step.id) ∧
    (execute (updParams (some sid) (some st)) m).2.steps.find?
        (fun step => step.id == sid) =
      (m.steps.find? (fun step => step.id == sid)).map
        (fun step => { step with status := st }) ∧
    (execute (updParams (some sid) (some st)) m).2.nextId = m.nextId := by
  have hexec : execute (updParams (some sid) (some st)) m =
      doUpdateStatus (updParams (some sid) (some st)) m := rfl
  have hfsid : strFalsy (some sid) = false := by
    simp [strFalsy, hsid]
  have hfst : strFalsy (some st) = false := by
    simp [strFalsy, hst]
  obtain ⟨s0, hs0⟩ := Option.isSome_iff_exists.mp hfound
  have hupd : m.updateStatus sid st =
      (true, { m with steps := setStatusFirst m.steps sid st }) := by
    unfold TodoManager.updateStatus
    rw [hs0]
  have hdo : doUpdateStatus (updParams (some sid) (some st)) m =
      (okMessage ("Updated step " ++ sid ++ " status to " ++ st)
        ("Updated step " ++ sid ++ " status to " ++ st),
       { m with steps := setStatusFirst m.steps sid st }) := by
    simp only [doUpdateStatus, updParams, hfsid, hfst, Bool.or_self,
      Bool.false_eq_true, if_false, Option.getD_some, hupd, if_true]
  rw [hexec, hdo]
  exact ⟨rfl, setStatusFirst_map_id sid st m.steps,
    setStatusFirst_find sid st m.steps, rfl⟩

/-- Witness for `update_status_unvalidated`: the out-of-enum status
string `"bogus"` is accepted and stored verbatim. -/
theorem update_status_unvalidated_witness :
    (execute (updParams (some "1") (some "bogus"))
        { steps := [{ id := "1", title := "A", description := "a",
                      status := TodoStatus.NOT_MADE }],
          nextId := 2 }).1.llmContent.success = true ∧
    (execute (updParams (some "1") (some "bogus"))
        { steps := [{ id := "1", title := "A", description := "a",
                      status := TodoStatus.NOT_MADE }],
          nextId := 2 }).2.steps.find? (fun step => step.id == "1") =
      some { id := "1", title := "A", description := "a",
             status := "bogus" } := by
  have h := update_status_unvalidated
    { steps := [{ id := "1", title := "A", description := "a",
                  status := TodoStatus.NOT_MADE }], nextId := 2 }
    "1" "bogus" (by decide) (by decide) (by decide)
  exact ⟨h.1, h.2.2.1.trans (by decide)⟩

/-! ### C8 — `deleteStep` -/

theorem eraseIdx_findIdx?_eq_eraseP {α : Type} (p : α → Bool) :
    ∀ (l : List α) (i : Nat), l.findIdx? p = some i →
      l.eraseIdx i = l.eraseP p := by
  intro l
  induction l with
  | nil => intro i h; cases h
  | cons a l ih =>
    intro i h
    rw [List.findIdx?_cons] at h
    by_cases hpa : p a = true
    · rw [if_pos hpa] at h
      injection h with h
      subst h
      rw [List.eraseIdx_cons_zero, List.eraseP_cons, hpa]
      rfl
    · rw [if_neg hpa, List.findIdx?_succ] at h
      obtain ⟨j, hj, rfl⟩ := Option.map_eq_some'.mp h
      rw [Bool.not_eq_true] at hpa
      rw [List.eraseIdx_cons_succ, List.eraseP_cons, hpa, ih j hj]
      rfl

/-- `deleteStep` in closed form: a found id removes the first matching
record (`eraseP`), an absent id changes nothing. -/
theorem deleteStep_eq (m : TodoManager) (id : String) :
    m.deleteStep id =
      if m.steps.any (fun step => step.id == id) then
        (true,
         { m with steps := m.steps.eraseP (fun step => step.id == id) })
      else (false, m) := by
  have hiso : (List.findIdx? (fun step => step.id == id) m.steps).isSome =
      m.steps.any (fun step => step.id == id) := List.findIdx?_isSome
  unfold TodoManager.deleteStep
  cases hfi : m.steps.findIdx? (fun step => step.id == id) with
  | none =>
    rw [hfi] at hiso
    simp only [Option.isSome_none] at hiso
    rw [if_neg (by rw [← hiso]; exact Bool.false_ne_true)]
  | some i =>
    rw [hfi] at hiso
    simp only [Option.isSome_some] at hiso
    rw [if_pos hiso.symm]
    show (true, { m with steps := m.steps.eraseIdx i }) = _
    rw [eraseIdx_findIdx?_eq_eraseP (fun step => step.id == id) m.steps i hfi]

theorem countP_le_one_of_nodup_map (f : TodoStep → String)
    (x : String) :
    ∀ l : List TodoStep, (l.map f).Nodup →
      l.countP (fun a => f a == x) ≤ 1 := by
  intro l
  induction l with
  | nil => intro _; rw [List.countP_nil]; omega
  | cons a l ih =>
    intro h
    rw [List.map_cons, List.nodup_cons] at h
    rw [List.countP_cons]
    by_cases hpa : (f a == x) = true
    · have hfa : f a = x := by simpa using hpa
      have hzero : l.countP (fun a => f a == x) = 0 := by
        rw [List.countP_eq_zero]
        intro b hb hbx
        have hfb : f b = x := by simpa using hbx
        exact h.1 (List.mem_map.mpr ⟨b, hb, hfb.trans hfa.symm⟩)
      rw [hzero, if_pos hpa]
    · rw [if_neg hpa]
      have := ih h.2
      omega

theorem eraseP_eq_filter_not {α : Type} (p : α → Bool) :
    ∀ l : List α, l.countP p ≤ 1 →
      l.eraseP p = l.filter (fun a => !(p a)) := by
  intro l
  induction l with
  | nil => intro _; rfl
  | cons a l ih =>
    intro h
    rw [List.countP_cons] at h
    rw [List.eraseP_cons, List.filter_cons]
    by_cases hpa : p a = true
    · rw [if_pos hpa] at h
      have hzero : l.countP p = 0 := by omega
      have hfl : l.filter (fun a => !(p a)) = l := by
        rw [List.filter_eq_self]
        intro b hb
        have := List.countP_eq_zero.mp hzero b hb
        simp [this]
      simp [hpa, hfl]
    · have hpa' : p a = false := by simpa using hpa
      rw [if_neg hpa] at h
      simp [hpa', ih (by omega)]

/-- The store invariant every reachable `TodoManager` state satisfies:
every held id is the decimal rendering of a number below the counter,
and the held ids are pairwise distinct. -/
def StoreInv (m : TodoManager) : Prop :=
  (∀ step ∈ m.steps, ∃ k, k < m.nextId ∧ step.id = toString k) ∧
  (m.steps.map (fun step => step.id)).Nodup

theorem initializeTodo_map_id (m : TodoManager)
    (entries : List (String × String)) :
    (m.initializeTodo entries).steps.map (fun step => step.id) =
      (List.range entries.length).map (fun i => toString (i + 1)) := by
  show (entries.enum.map _).map _ = _
  rw [List.map_map]
  have : ((fun step => step.id) ∘ fun p : Nat × (String × String) =>
      ({ id := toString (p.1 + 1), title := p.2.1, description := p.2.2,
         status := TodoStatus.NOT_MADE } : TodoStep)) =
      (fun i => toString (i + 1)) ∘ Prod.fst := rfl
  rw [this, ← List.map_map, List.enum_map_fst]

theorem storeInv_fresh : StoreInv TodoManager.fresh := by
  constructor
  · intro step h
    cases h
  · exact List.nodup_nil

theorem storeInv_applyOp (m : TodoManager) (op : Op) (h : StoreInv m) :
    StoreInv (applyOp m op) := by
  obtain ⟨hbound, hnodup⟩ := h
  cases op with
  | init entries =>
    constructor
    · intro step hstep
      have hid : step.id ∈ (m.initializeTodo entries).steps.map
          (fun step => step.id) := List.mem_map.mpr ⟨step, hstep, rfl⟩
      rw [initializeTodo_map_id] at hid
      obtain ⟨i, hi, hval⟩ := List.mem_map.mp hid
      rw [List.mem_range] at hi
      refine ⟨i + 1, ?_, hval.symm⟩
      have : (applyOp m (.init entries)).nextId = entries.length + 1 := by
        simp [applyOp, TodoManager.initializeTodo]
      rw [this]
      omega
    · show ((m.initializeTodo entries).steps.map _).Nodup
      rw [initializeTodo_map_id]
      refine List.Nodup.map ?_ (List.nodup_range entries.length)
      intro a b hab
      have := natToString_inj hab
      omega
  | add t d =>
    constructor
    · intro step hstep
      show ∃ k, k < m.nextId + 1 ∧ step.id = toString k
      rw [show (applyOp m (.add t d)).steps = m.steps ++
          [{ id := toString m.nextId, title := t, description := d,
             status := TodoStatus.NOT_MADE }] from rfl] at hstep
      rcases List.mem_append.mp hstep with hs | hs
      · obtain ⟨k, hk, hkid⟩ := hbound step hs
        exact ⟨k, by omega, hkid⟩
      · have := List.mem_singleton.mp hs
        subst this
        exact ⟨m.nextId, by omega, rfl⟩
    · show ((m.steps ++ [_]).map _).Nodup
      rw [List.map_append]
      rw [List.nodup_append]
      refine ⟨hnodup, List.nodup_singleton _, ?_⟩
      intro a ha hb
      obtain ⟨step, hstep, hstepid⟩ := List.mem_map.mp ha
      obtain ⟨k, hk, hkid⟩ := hbound step hstep
      simp only [List.map_cons, List.map_nil, List.mem_singleton] at hb
      rw [← hstepid, hkid] at hb
      have := natToString_inj hb
      omega
  | del id =>
    have hsub : (m.deleteStep id).2.steps.Sublist m.steps := by
      rw [deleteStep_eq]
      by_cases hany : m.steps.any (fun step => step.id == id) = true
      · rw [if_pos hany]
        exact List.eraseP_sublist m.steps
      · rw [if_neg hany]
    have hnext : (m.deleteStep id).2.nextId = m.nextId := by
      rw [deleteStep_eq]
      by_cases hany : m.steps.any (fun step => step.id == id) = true
      · rw [if_pos hany]
      · rw [if_neg hany]
    constructor
    · intro step hstep
      show ∃ k, k < (m.deleteStep id).2.nextId ∧ step.id = toString k
      rw [hnext]
      exact hbound step (hsub.subset hstep)
    · exact (hsub.map (fun step => step.id)).nodup hnodup
  | upd id status =>
    have hmap : (m.updateStatus id status).2.steps.map (fun step => step.id) =
        m.steps.map (fun step => step.id) := by
      unfold TodoManager.updateStatus
      cases m.steps.find? (fun step => step.id == id) with
      | none => rfl
      | some s => exact setStatusFirst_map_id id status m.steps
    constructor
    · intro step hstep
      have hid : step.id ∈ (m.updateStatus id status).2.steps.map
          (fun step => step.id) := List.mem_map.mpr ⟨step, hstep, rfl⟩
      rw [hmap] at hid
      obtain ⟨s0, hs0, hs0id⟩ := List.mem_map.mp hid
      obtain ⟨k, hk, hkid⟩ := hbound s0 hs0
      refine ⟨k, ?_, hs0id ▸ hkid⟩
      rw [show (applyOp m (.upd id status)).nextId = m.nextId from
        setStatusFirst_nextId m id status]
      exact hk
    · show ((m.updateStatus id status).2.steps.map _).Nodup
      rw [hmap]
      exact hnodup
  | clear =>
    constructor
    · intro step h
      cases h
    · exact List.nodup_nil

theorem storeInv_runOps : ∀ (ops : List Op) (m : TodoManager),
    StoreInv m → StoreInv (runOps m ops) := by
  intro ops
  induction ops with
  | nil => intro m h; exact h
  | cons op rest ih =>
    intro m h
    exact ih (applyOp m op) (storeInv_applyOp m op h)

theorem deleteStep_fst_false_of_any_false (m : TodoManager) (id : String)
    (h : m.steps.any (fun step => step.id == id) = false) :
    (m.deleteStep id).1 = false := by
  rw [deleteStep_eq, if_neg (by rw [h]; exact Bool.false_ne_true)]

/-- `deleteStep` on any state whose ids are pairwise distinct. -/
theorem deleteStep_spec (m : TodoManager) (id : String)
    (h : (m.steps.map (fun step => step.id)).Nodup) :
    (m.deleteStep id).1 = m.steps.any (fun step => step.id == id) ∧
    (m.steps.any (fun step => step.id == id) = true →
      (m.deleteStep id).2.steps =
        m.steps.filter (fun step => !(step.id == id))) ∧
    (m.steps.any (fun step => step.id == id) = false →
      (m.deleteStep id).2 = m) ∧
    (m.deleteStep id).2.nextId = m.nextId ∧
    ((m.deleteStep id).2.deleteStep id).1 = false := by
  have hcount := countP_le_one_of_nodup_map (fun step => step.id) id m.steps h
  have herase := eraseP_eq_filter_not (fun step => step.id == id)
    m.steps hcount
  by_cases hany : m.steps.any (fun step => step.id == id) = true
  · have hsteps : (m.deleteStep id).2.steps =
        m.steps.filter (fun step => !(step.id == id)) := by
      rw [deleteStep_eq, if_pos hany]
      exact herase
    have hfst : (m.deleteStep id).1 = true := by
      rw [deleteStep_eq, if_pos hany]
    have hnext : (m.deleteStep id).2.nextId = m.nextId := by
      rw [deleteStep_eq, if_pos hany]
    refine ⟨by rw [hfst, hany], fun _ => hsteps, ?_, hnext, ?_⟩
    · intro hc
      rw [hany] at hc
      cases hc
    · apply deleteStep_fst_false_of_any_false
      rw [hsteps]
      simp only [Bool.eq_false_iff]
      intro hc
      obtain ⟨x, hx, hpx⟩ := List.any_eq_true.mp hc
      obtain ⟨_, hnx⟩ := List.mem_filter.mp hx
      rw [hpx] at hnx
      cases hnx
  · have hany' : m.steps.any (fun step => step.id == id) = false := by
      simpa using hany
    have hdel : m.deleteStep id = (false, m) := by
      rw [deleteStep_eq, if_neg hany]
    refine ⟨by rw [hdel, hany'], ?_, fun _ => by rw [hdel], by rw [hdel], ?_⟩
    · intro hc
      rw [hany'] at hc
      cases hc
    · rw [hdel]
      exact deleteStep_fst_false_of_any_false m id hany'

/-- C8: on every reachable store state, `delete(id)` removes exactly the
record matching `id` by exact string equality when present (reporting
`true`), otherwise removes nothing and reports `false`; survivors keep
their ids and order (the result is a filter of the original sequence),
the counter is untouched, and an immediate second `delete(id)` reports
`false`. -/
theorem delete_exact_and_idempotent (ops : List Op) (id : String) :
    ((runOps TodoManager.fresh ops).deleteStep id).1 =
      (runOps TodoManager.fresh ops).steps.any (fun step => step.id == id) ∧
    ((runOps TodoManager.fresh ops).steps.any
        (fun step => step.id == id) = true →
      ((runOps TodoManager.fresh ops).deleteStep id).2.steps =
        (runOps TodoManager.fresh ops).steps.filter
          (fun step => !(step.id == id))) ∧
    ((runOps TodoManager.fresh ops).steps.any
        (fun step => step.id == id) = false →
      ((runOps TodoManager.fresh ops).deleteStep id).2 =
        runOps TodoManager.fresh ops) ∧
    ((runOps TodoManager.fresh ops).deleteStep id).2.nextId =
      (runOps TodoManager.fresh ops).nextId ∧
    (((runOps TodoManager.fresh ops).deleteStep id).2.deleteStep id).1 =
      false :=
  deleteStep_spec (runOps TodoManager.fresh ops) id
    (storeInv_runOps ops TodoManager.fresh storeInv_fresh).2

/-- Witness for `delete_exact_and_idempotent`: add one step, delete it
(successfully), delete again — found is `false` the second time. -/
theorem delete_exact_and_idempotent_witness :
    ((runOps TodoManager.fresh [Op.add "A" "a"]).deleteStep "1").2.steps =
      [] ∧
    (((runOps TodoManager.fresh [Op.add "A" "a"]).deleteStep
        "1").2.deleteStep "1").1 = false := by
  have h := delete_exact_and_idempotent [Op.add "A" "a"] "1"
  refine ⟨(h.2.1 (by decide)).trans (by decide), h.2.2.2.2⟩

/-! ### C7 — every failure is structured and mutation-free -/

theorem string_append_ne_empty (a b : String) (ha : a ≠ "") :
    a ++ b ≠ "" := by
  cases a with | mk da =>
  cases b with | mk db =>
  intro hc
  apply ha
  have hdata : da ++ db = ([] : List Char) := congrArg String.data hc
  have hda : da = [] := (List.append_eq_nil.mp hdata).1
  rw [hda]

theorem errResult_error_ok (msg : String) (h : msg ≠ "") :
    (errResult msg).llmContent.error ≠ none ∧
    (errResult msg).llmContent.error ≠ some "" := by
  constructor
  · intro hc
    exact Option.noConfusion hc
  · intro hc
    exact h (Option.some.inj hc)

theorem doInitialize_fail (p : TodoToolParams) (m : TodoManager)
    (h : (doInitialize p m).1.llmContent.success = false) :
    (doInitialize p m).2 = m ∧
    (doInitialize p m).1.llmContent.error ≠ none ∧
    (doInitialize p m).1.llmContent.error ≠ some "" := by
  cases hs : p.steps with
  | none =>
    have hd : doInitialize p m =
        (errResult "Steps array required for initialize action", m) := by
      simp [doInitialize, hs]
    rw [hd]
    exact ⟨rfl, errResult_error_ok _ (by decide)⟩
  | some entries =>
    exfalso
    have : (doInitialize p m).1.llmContent.success = true := by
      simp [doInitialize, hs]
    rw [this] at h
    cases h

theorem doAdd_fail (p : TodoToolParams) (m : TodoManager)
    (h : (doAdd p m).1.llmContent.success = false) :
    (doAdd p m).2 = m ∧
    (doAdd p m).1.llmContent.error ≠ none ∧
    (doAdd p m).1.llmContent.error ≠ some "" := by
  by_cases hf : (strFalsy p.title || strFalsy p.description) = true
  · have hd : doAdd p m =
        (errResult "Title and description required for add action", m) := by
      simp [doAdd, hf]
    rw [hd]
    exact ⟨rfl, errResult_error_ok _ (by decide)⟩
  · exfalso
    have hf' : (strFalsy p.title || strFalsy p.description) = false := by
      simpa using hf
    have : (doAdd p m).1.llmContent.success = true := by
      simp [doAdd, hf']
    rw [this] at h
    cases h

theorem doDelete_fail (p : TodoToolParams) (m : TodoManager)
    (h : (doDelete p m).1.llmContent.success = false) :
    (doDelete p m).2 = m ∧
    (doDelete p m).1.llmContent.error ≠ none ∧
    (doDelete p m).1.llmContent.error ≠ some "" := by
  by_cases hsid : strFalsy p.step_id = true
  · have hd : doDelete p m =
        (errResult "Step ID required for delete action", m) := by
      simp [doDelete, hsid]
    rw [hd]
    exact ⟨rfl, errResult_error_ok _ (by decide)⟩
  · have hsid' : strFalsy p.step_id = false := by simpa using hsid
    by_cases hany : m.steps.any
        (fun step => step.id == p.step_id.getD "") = true
    · exfalso
      have hfst : (m.deleteStep (p.step_id.getD "")).1 = true := by
        rw [deleteStep_eq, if_pos hany]
      have : (doDelete p m).1.llmContent.success = true := by
        simp [doDelete, hsid', hfst, okMessage]
      rw [this] at h
      cases h
    · have hany' : m.steps.any
          (fun step => step.id == p.step_id.getD "") = false := by
        simpa using hany
      have hdel : m.deleteStep (p.step_id.getD "") = (false, m) := by
        rw [deleteStep_eq, if_neg (by rw [hany']; exact Bool.false_ne_true)]
      have hd : doDelete p m =
          (errResult ("Step " ++ p.step_id.getD "" ++ " not found"), m) := by
        simp [doDelete, hsid', hdel]
      rw [hd]
      exact ⟨rfl, errResult_error_ok _
        (string_append_ne_empty _ _
          (string_append_ne_empty "Step " _ (by decide)))⟩

theorem doUpdateStatus_fail (p : TodoToolParams) (m : TodoManager)
    (h : (doUpdateStatus p m).1.llmContent.success = false) :
    (doUpdateStatus p m).2 = m ∧
    (doUpdateStatus p m).1.llmContent.error ≠ none ∧
    (doUpdateStatus p m).1.llmContent.error ≠ some "" := by
  by_cases hfs : (strFalsy p.step_id || strFalsy p.status) = true
  · have hd : doUpdateStatus p m =
        (errResult "Step ID and status required for update_status action",
         m) := by
      simp [doUpdateStatus, hfs]
    rw [hd]
    exact ⟨rfl, errResult_error_ok _ (by decide)⟩
  · have hfs' : (strFalsy p.step_id || strFalsy p.status) = false := by
      simpa using hfs
    cases hfind : m.steps.find?
        (fun step => step.id == p.step_id.getD "") with
    | some s0 =>
      exfalso
      have hupd : m.updateStatus (p.step_id.getD "") (p.status.getD "") =
          (true, { m with steps :=
            setStatusFirst m.steps (p.step_id.getD "") (p.status.getD "") }) := by
        unfold TodoManager.updateStatus
        rw [hfind]
      have : (doUpdateStatus p m).1.llmContent.success = true := by
        simp [doUpdateStatus, hfs', hupd, okMessage]
      rw [this] at h
      cases h
    | none =>
      have hupd : m.updateStatus (p.step_id.getD "") (p.status.getD "") =
          (false, m) := by
        unfold TodoManager.updateStatus
        rw [hfind]
      have hd : doUpdateStatus p m =
          (errResult ("Step " ++ p.step_id.getD "" ++ " not found"), m) := by
        simp [doUpdateStatus, hfs', hupd]
      rw [hd]
      exact ⟨rfl, errResult_error_ok _
        (string_append_ne_empty _ _
          (string_append_ne_empty "Step " _ (by decide)))⟩

/-- The parameter record of a call with the unknown action tag
`"frobnicate"`. -/
def frobParams : TodoToolParams :=
  { action := "frobnicate", steps := none, step_id := none, title := none,
    description := none, status := none }

/-- C7: every failing `execute` call — missing required field, id not
found, or unrecognized action — returns a structured failure whose
`error` field carries a nonempty human-readable message and leaves the
store untouched; in particular the unknown tag `"frobnicate"` produces
`success = false` with the unknown-action message and no mutation.  (The
`catch` fallback for internal faults also returns this shape; in the
pure embedding no branch can throw, so it is unreachable.) -/
theorem failures_structured_and_pure (p : TodoToolParams)
    (m : TodoManager) :
    ((execute p m).1.llmContent.success = false →
      (execute p m).2 = m ∧
      (execute p m).1.llmContent.error ≠ none ∧
      (execute p m).1.llmContent.error ≠ some "") ∧
    (execute frobParams m).1.llmContent.success = false ∧
    (execute frobParams m).1.llmContent.error =
      some ("Unknown action: " ++ "frobnicate") ∧
    (execute frobParams m).2 = m := by
  refine ⟨?_, rfl, rfl, rfl⟩
  intro h
  by_cases h1 : (p.action == "initialize") = true
  · have he : execute p m = doInitialize p m := by simp [execute, h1]
    rw [he] at h ⊢
    exact doInitialize_fail p m h
  · by_cases h2 : (p.action == "add") = true
    · have he : execute p m = doAdd p m := by simp [execute, h1, h2]
      rw [he] at h ⊢
      exact doAdd_fail p m h
    · by_cases h3 : (p.action == "delete") = true
      · have he : execute p m = doDelete p m := by simp [execute, h1, h2, h3]
        rw [he] at h ⊢
        exact doDelete_fail p m h
      · by_cases h4 : (p.action == "update_status") = true
        · have he : execute p m = doUpdateStatus p m := by
            simp [execute, h1, h2, h3, h4]
          rw [he] at h ⊢
          exact doUpdateStatus_fail p m h
        · by_cases h5 : (p.action == "get_steps") = true
          · exfalso
            have he : execute p m = doGetSteps m := by
              simp [execute, h1, h2, h3, h4, h5]
            rw [he] at h
            cases h
          · by_cases h6 : (p.action == "clear") = true
            · exfalso
              have he : execute p m =
                  (okMessage "TODO list cleared" "TODO list cleared",
                   m.clearTodo) := by
                simp [execute, h1, h2, h3, h4, h5, h6]
              rw [he] at h
              cases h
            · have he : execute p m =
                  (errResult ("Unknown action: " ++ p.action), m) := by
                simp [execute, h1, h2, h3, h4, h5, h6]
              rw [he]
              exact ⟨rfl, errResult_error_ok _
                (string_append_ne_empty "Unknown action: " _ (by decide))⟩

/-- Witness for `failures_structured_and_pure`: the `"frobnicate"` call
on a fresh store fails without mutating it. -/
theorem failures_structured_and_pure_witness :
    (execute frobParams TodoManager.fresh).2 = TodoManager.fresh ∧
    (execute frobParams TodoManager.fresh).1.llmContent.error ≠ none := by
  have h := (failures_structured_and_pure frobParams TodoManager.fresh).1
    (by decide)
  exact ⟨h.1, h.2.1⟩

/-! ### C1 — id uniqueness and counter monotonicity over a store
lifetime -/

theorem counterTrace_head? (ops : List Op) (m : TodoManager) :
    (counterTrace m ops).head? = some m.nextId := by
  cases ops <;> rfl

theorem deleteStep_nextId (m : TodoManager) (id : String) :
    (m.deleteStep id).2.nextId = m.nextId := by
  rw [deleteStep_eq]
  by_cases hany : m.steps.any (fun step => step.id == id) = true
  · rw [if_pos hany]
  · rw [if_neg hany]

theorem assigned_nodup_aux : ∀ (ops : List Op) (m : TodoManager),
    ops.all (fun op => !op.resets) = true →
    (∀ s ∈ assignedFrom m ops, ∃ k, m.nextId ≤ k ∧ s = toString k) ∧
    (assignedFrom m ops).Nodup ∧
    (counterTrace m ops).Chain' (· ≤ ·) := by
  intro ops
  induction ops with
  | nil =>
    intro m _
    exact ⟨fun s hs => absurd hs (by simp [assignedFrom]),
      List.nodup_nil, List.chain'_singleton _⟩
  | cons op rest ih =>
    intro m hall
    rw [List.all_cons, Bool.and_eq_true] at hall
    obtain ⟨hop, hrest⟩ := hall
    have hchainstep : ∀ m' : TodoManager, m.nextId ≤ m'.nextId →
        (counterTrace m' rest).Chain' (· ≤ ·) →
        (m.nextId :: counterTrace m' rest).Chain' (· ≤ ·) := by
      intro m' hle hch
      rw [List.chain'_cons']
      refine ⟨?_, hch⟩
      intro y hy
      rw [counterTrace_head? rest m'] at hy
      cases hy
      exact hle
    cases op with
    | init entries => exact absurd hop (by simp [Op.resets])
    | clear => exact absurd hop (by simp [Op.resets])
    | add t d =>
      have hnext : (applyOp m (.add t d)).nextId = m.nextId + 1 := rfl
      obtain ⟨hbound, hnodup, hchain⟩ := ih (applyOp m (.add t d)) hrest
      have hassign : assignedFrom m (Op.add t d :: rest) =
          toString m.nextId ::
            assignedFrom (applyOp m (Op.add t d)) rest := rfl
      refine ⟨?_, ?_, ?_⟩
      · intro s hs
        rw [hassign] at hs
        rcases List.mem_cons.mp hs with hs | hs
        · exact ⟨m.nextId, Nat.le_refl _, hs⟩
        · obtain ⟨k, hk, hkval⟩ := hbound s hs
          rw [hnext] at hk
          exact ⟨k, by omega, hkval⟩
      · rw [hassign, List.nodup_cons]
        refine ⟨?_, hnodup⟩
        intro hmem
        obtain ⟨k, hk, hkval⟩ := hbound _ hmem
        rw [hnext] at hk
        have := natToString_inj hkval
        omega
      · show (m.nextId :: _).Chain' (· ≤ ·)
        exact hchainstep _ (by rw [hnext]; omega) hchain
    | del id =>
      have hnext : (applyOp m (.del id)).nextId = m.nextId :=
        deleteStep_nextId m id
      obtain ⟨hbound, hnodup, hchain⟩ := ih (applyOp m (.del id)) hrest
      have hassign : assignedFrom m (Op.del id :: rest) =
          assignedFrom (applyOp m (Op.del id)) rest := rfl
      refine ⟨?_, ?_, ?_⟩
      · intro s hs
        rw [hassign] at hs
        obtain ⟨k, hk, hkval⟩ := hbound s hs
        rw [hnext] at hk
        exact ⟨k, hk, hkval⟩
      · rw [hassign]
        exact hnodup
      · show (m.nextId :: _).Chain' (· ≤ ·)
        exact hchainstep _ (by rw [hnext]) hchain
    | upd id status =>
      have hnext : (applyOp m (.upd id status)).nextId = m.nextId :=
        setStatusFirst_nextId m id status
      obtain ⟨hbound, hnodup, hchain⟩ := ih (applyOp m (.upd id status)) hrest
      have hassign : assignedFrom m (Op.upd id status :: rest) =
          assignedFrom (applyOp m (Op.upd id status)) rest := rfl
      refine ⟨?_, ?_, ?_⟩
      · intro s hs
        rw [hassign] at hs
        obtain ⟨k, hk, hkval⟩ := hbound s hs
        rw [hnext] at hk
        exact ⟨k, hk, hkval⟩
      · rw [hassign]
        exact hnodup
      · show (m.nextId :: _).Chain' (· ≤ ·)
        exact hchainstep _ (by rw [hnext]) hchain

/-- C1 counterexample: on the call sequence `add; clear; add` the id
`"1"` is assigned twice (once before and once after `clear`, which
resets the counter to 1), and the counter trace `1, 2, 1, 2` decreases
at the reset — so the claimed lifetime invariant fails for sequences
containing `clear` (and likewise `initialize`). -/
theorem lifetime_claim_fails_with_clear :
    ¬ LifetimeClaim [Op.add "A" "a", Op.clear, Op.add "B" "b"] := by
  intro hcl
  have := hcl.1
  rw [show assignedFrom TodoManager.fresh
      [Op.add "A" "a", Op.clear, Op.add "B" "b"] = ["1", "1"] from rfl] at this
  simp at this

/-- C1 (amended): over every finite call sequence that contains no
counter-resetting operation (`initializeTodo` and `clearTodo` both reset
the counter), the ids ever assigned by one store instance are pairwise
distinct and the id counter never decreases. -/
theorem lifetime_unique_without_resets (ops : List Op)
    (h : ops.all (fun op => !op.resets) = true) :
    LifetimeClaim ops := by
  obtain ⟨_, hnodup, hchain⟩ :=
    assigned_nodup_aux ops TodoManager.fresh h
  exact ⟨hnodup, hchain⟩

/-- Witness for `lifetime_unique_without_resets` on the sequence
`add; delete; add`. -/
theorem lifetime_unique_without_resets_witness :
    LifetimeClaim [Op.add "A" "a", Op.del "1", Op.add "B" "b"] :=
  lifetime_unique_without_resets
    [Op.add "A" "a", Op.del "1", Op.add "B" "b"] (by decide)

/-! ### C3 — `getSteps` is only a shallow copy -/

theorem getD_set_self {α : Type} :
    ∀ (l : List α) (i : Nat) (v d : α), i < l.length →
      (l.set i v).getD i d = v := by
  intro l
  induction l with
  | nil =>
    intro i v d h
    simp at h
  | cons a l ih =>
    intro i v d h
    cases i with
    | zero => rfl
    | succ j =>
      show (l.set j v).getD j d = v
      exact ih j v d (by simpa using h)

theorem getD_set_ne {α : Type} :
    ∀ (l : List α) (i j : Nat) (v d : α), j ≠ i →
      (l.set i v).getD j d = l.getD j d := by
  intro l
  induction l with
  | nil => intro i j v d _; rfl
  | cons a l ih =>
    intro i j v d h
    cases i with
    | zero =>
      cases j with
      | zero => exact absurd rfl h
      | succ jj => rfl
    | succ ii =>
      cases j with
      | zero => rfl
      | succ jj =>
        show (l.set ii v).getD jj d = l.getD jj d
        exact ih ii jj v d (by omega)

/-- A one-step store in the reference model: the heap holds the single
`TodoStep` object, the store's array references it. -/
def refS0 : RefState :=
  { heap := [{ id := "1", title := "A", description := "a",
               status := TodoStatus.NOT_MADE }],
    refs := [0], nextId := 2 }

/-- C3 counterexample: the caller takes the array returned by
`getSteps` (`[...this.steps]` copies the array but shares the `TodoStep`
objects), overwrites the `status` field of its first element, and the
store's observable contents change — a subsequent `getSteps` no longer
returns the earlier contents, so the copy is not defensive against
record mutation. -/
theorem caller_mutation_changes_store :
    RefState.observe (callerWriteStatus refS0
        ((RefState.getStepsRefs refS0).headD 0) TodoStatus.MADE) ≠
      RefState.observe refS0 := by decide

/-- C3 (amended): `getSteps` returns a *shallow* copy — a fresh array
holding the store's task references, so the store's array and counter
are unaffected by anything done to the returned array; but the task
records are shared, so writing the `status` field of a returned record
rewrites the record the store holds, visible at every position of a
subsequent `getSteps` that references it. -/
theorem getSteps_shallow_copy (s : RefState) (r : Nat) (st : String)
    (h : r < s.heap.length) :
    RefState.getStepsRefs s = s.refs ∧
    (callerWriteStatus s r st).refs = s.refs ∧
    (callerWriteStatus s r st).nextId = s.nextId ∧
    RefState.observe (callerWriteStatus s r st) =
      s.refs.map (fun q =>
        if q = r then { s.heap.getD r blankStep with status := st }
        else s.heap.getD q blankStep) := by
  refine ⟨rfl, rfl, rfl, ?_⟩
  show s.refs.map _ = _
  apply List.map_congr_left
  intro q _
  by_cases hq : q = r
  · subst hq
    rw [if_pos rfl]
    exact getD_set_self s.heap q _ blankStep h
  · rw [if_neg hq]
    exact getD_set_ne s.heap r q _ blankStep hq

/-- Witness for `getSteps_shallow_copy` on the one-step store. -/
theorem getSteps_shallow_copy_witness :
    RefState.observe (callerWriteStatus refS0 0 TodoStatus.MADE) =
      [{ id := "1", title := "A", description := "a",
         status := TodoStatus.MADE }] := by
  have h := getSteps_shallow_copy refS0 0 TodoStatus.MADE (by decide)
  exact h.2.2.2.trans (by decide)

/-- Witness for `display_one_line_per_task` at a concrete two-element
store. -/
theorem display_one_line_per_task_witness :
    TodoManager.getStepsForDisplay
        { steps := [{ id := "1", title := "A", description := "a",
                      status := TodoStatus.IN_PROGRESS },
                    { id := "2", title := "B", description := "b",
                      status := TodoStatus.MADE }], nextId := 3 } =
      "🔄 A" ++ "\n" ++ "✅ B" := by
  have h := display_one_line_per_task.2.2.1
    { steps := [{ id := "1", title := "A", description := "a",
                  status := TodoStatus.IN_PROGRESS },
                { id := "2", title := "B", description := "b",
                  status := TodoStatus.MADE }], nextId := 3 }
    { id := "1", title := "A", description := "a",
      status := TodoStatus.IN_PROGRESS }
    [{ id := "2", title := "B", description := "b",
       status := TodoStatus.MADE }]
    rfl (by simp)
  rw [h]
  have h2 := display_one_line_per_task.2.1
    ({ steps := [{ id := "2", title := "B", description := "b",
                   status := TodoStatus.MADE }], nextId := 3 } : TodoManager)
    { id := "2", title := "B", description := "b",
      status := TodoStatus.MADE } rfl
  rw [h2]
  rfl

end TodoSpec
